/-
Verification of the epiotrkow.pl RSS scraper (scraper.py).

Shallow embedding conventions:
* Text is modelled as `Str := List Char` so that list lemmas apply directly;
  string literals enter through `String.toList`.
* Python `re` is modelled for newline-free strings, with `\d` as ASCII digits.
* HTML pages are flat pre-order node tables with parent pointers; CSS
  selection, `find`, `find_next` and `get_text` are defined over that table.
* Fetching is a function `Str → Option Page`; `none` models any request or
  HTTP-status failure handled by a `try/except` in the script.
-/
import Mathlib

set_option maxHeartbeats 1000000
set_option maxRecDepth 100000
set_option linter.unnecessarySimpa false

abbrev Str := List Char

/-! ## Python string helpers -/

/-- Python truthiness of an optional string: `None` and `""` are falsy. -/

def optTruthy : Option Str → Bool
  | some s => !s.isEmpty
  | none => false

/-- Python `a or b` on optional strings. -/

def pyOr (a b : Option Str) : Option Str :=
  if optTruthy a then a else b

/-- The ASCII whitespace characters recognised by Python `str.strip`/`split`. -/

def isPyWs (c : Char) : Bool :=
  c = ' ' || c = '\t' || c = '\n' || c = '\x0d' || c = '\x0b' || c = '\x0c'

/-- Python `str.strip()`. -/

def pyStrip (s : Str) : Str :=
  ((s.dropWhile isPyWs).reverse.dropWhile isPyWs).reverse

/-- Python `str.rstrip()`. -/

def pyRstrip (s : Str) : Str :=
  (s.reverse.dropWhile isPyWs).reverse

/-- Worker for `pySplitWs`. -/

def splitWsGo : Str → Str → List Str
  | [], acc => if acc.isEmpty then [] else [acc.reverse]
  | c :: rest, acc =>
    if isPyWs c then
      if acc.isEmpty then splitWsGo rest [] else acc.reverse :: splitWsGo rest []
    else splitWsGo rest (c :: acc)

/-- Python `str.split()` with no argument: split on whitespace runs, dropping
empty pieces. -/

def pySplitWs (s : Str) : List Str := splitWsGo s []

/-- Join a list of words with single spaces. -/

def joinSp (xs : List Str) : Str := List.intercalate [' '] xs

/-- `" ".join(s.split())`: collapse whitespace runs to single spaces. -/

def collapseWs (s : Str) : Str := joinSp (pySplitWs s)

/-- Python `str.lower()` restricted to ASCII plus the Polish letters that
appear in the month table. -/

def pyToLower (c : Char) : Char :=
  if 'A' ≤ c && c ≤ 'Z' then Char.ofNat (c.toNat + 32)
  else if c = 'Ą' then 'ą' else if c = 'Ć' then 'ć' else if c = 'Ę' then 'ę'
  else if c = 'Ł' then 'ł' else if c = 'Ń' then 'ń' else if c = 'Ó' then 'ó'
  else if c = 'Ś' then 'ś' else if c = 'Ź' then 'ź' else if c = 'Ż' then 'ż'
  else c

/-- Lowercase a string (`str.lower()`). -/

def strToLower (s : Str) : Str := s.map pyToLower

/-- `startswith` on our string model. -/

def startsWithS (p s : Str) : Bool := p.isPrefixOf s

/-- `endswith` on our string model. -/

def endsWithS (p s : Str) : Bool := p.isSuffixOf s

/-- Simplified model of `urllib.parse.urljoin`, covering the cases the script
exercises: absolute URLs pass through, root-relative paths are resolved
against the base's scheme-plus-host origin, other paths replace the segment
after the base's last slash. -/

def urljoin (base rel : Str) : Str :=
  if startsWithS "http://".toList rel || startsWithS "https://".toList rel then rel
  else if startsWithS "/".toList rel then
    let k : Nat :=
      if startsWithS "https://".toList base then 8
      else if startsWithS "http://".toList base then 7 else 0
    base.take k ++ (base.drop k).takeWhile (fun c => c ≠ '/') ++ rel
  else (base.reverse.dropWhile (fun c => c ≠ '/')).reverse ++ rel

/-! ## Configuration constants (module scope in scraper.py) -/

/-- `SITE = "https://epiotrkow.pl"`. -/

def SITE : Str := "https://epiotrkow.pl".toList

/-- `MAX_ITEMS = 500`. -/

def MAX_ITEMS : Nat := 500

/-- `DETAIL_LIMIT = 500`. -/

def DETAIL_LIMIT : Nat := 500

/-- `guess_mime`: derive a MIME type from the image URL's extension. -/

def guess_mime (url : Str) : Str :=
  if url.isEmpty then "image/*".toList
  else
    let u := strToLower url
    if endsWithS ".webp".toList u then "image/webp".toList
    else if endsWithS ".png".toList u then "image/png".toList
    else if endsWithS ".jpg".toList u then "image/jpeg".toList
    else if endsWithS ".jpeg".toList u then "image/jpeg".toList
    else "image/*".toList

/-! ## The item record -/

/-- One feed item, as built by the listing pass of `fetch_items`.  `pubDate`
and `lead` are the dict keys that only the enrichment loop may add. -/

structure Item where
  title : Str
  link : Str
  guid : Str
  image : Option Str
  mime : Option Str
  pubDate : Option Str := none
  lead : Option Str := none
deriving Repr, DecidableEq

/-! ## Deduplication by link (`fetch_items`, the `seen`/`unique` loop) -/

/-- Worker for `dedupByLink`, carrying the `seen` set of links. -/

def dedupGo : List Item → List Str → List Item
  | [], _ => []
  | it :: rest, seen =>
    if it.link ∈ seen then dedupGo rest seen
    else it :: dedupGo rest (it.link :: seen)

/-- The deduplication pass of `fetch_items`: keep the first occurrence of
each link, in input order. -/

def dedupByLink (its : List Item) : List Item := dedupGo its []

/-! ## The canonical article pattern (`ID_LINK = re.compile(r"^/news/.+,\d+$")`) -/

/-- `\d+$` applied to the tail `l` of the subject: a non-empty all-digit run. -/

def digitsPlus (l : Str) : Bool := !l.isEmpty && l.all Char.isDigit

/-- `ID_LINK.match(href)`: the regex `^/news/.+,\d+$` applied at the start of
the string.  Following regex semantics, the body `.+,\d+\$` holds iff some
split position `i` puts a non-empty run before a comma that is followed by one
or more digits reaching the end.  Modelled for newline-free strings; `\d` is
an ASCII digit. -/

def ID_LINK_match (s : Str) : Bool :=
  startsWithS "/news/".toList s &&
  (let r := s.drop 6
   (List.range r.length).any (fun i =>
     decide (0 < i) && decide (r.drop i = ',' :: r.drop (i + 1)) &&
       digitsPlus (r.drop (i + 1))))

/-! ## SHA-1 (`hashlib.sha1(link.encode("utf-8")).hexdigest()`) -/

/-- UTF-8 encoding of a string, as `str.encode("utf-8")`. -/

def utf8Bytes : Str → List Nat
  | [] => []
  | c :: rest =>
    let n := c.toNat
    (if n < 128 then [n]
     else if n < 2048 then [192 + n / 64, 128 + n % 64]
     else if n < 65536 then [224 + n / 4096, 128 + (n / 64) % 64, 128 + n % 64]
     else [240 + n / 262144, 128 + (n / 4096) % 64, 128 + (n / 64) % 64, 128 + n % 64])
      ++ utf8Bytes rest

/-- 32-bit left rotation. -/

def rotl32 (x n : Nat) : Nat := ((x <<< n) % 2 ^ 32) ||| ((x % 2 ^ 32) >>> (32 - n))

/-- SHA-1 message padding to a multiple of 64 bytes. -/

def sha1Pad (msg : List Nat) : List Nat :=
  let bitLen := msg.length * 8
  let padZeros := (55 + 64 - msg.length % 64) % 64
  msg ++ [128] ++ List.replicate padZeros 0 ++
    (List.range 8).map (fun i => bitLen / 2 ^ (8 * (7 - i)) % 256)

/-- Worker for `chunks64` (fuel = list length). -/

def chunks64Go : Nat → List Nat → List (List Nat)
  | 0, _ => []
  | fuel + 1, l => if l.isEmpty then [] else l.take 64 :: chunks64Go fuel (l.drop 64)

/-- Split a byte list into 64-byte chunks. -/

def chunks64 (l : List Nat) : List (List Nat) := chunks64Go l.length l

/-- Worker for `bytesToWords` (fuel = list length). -/

def bytesToWordsGo : Nat → List Nat → List Nat
  | 0, _ => []
  | fuel + 1, l =>
    if l.isEmpty then []
    else (l.take 4).foldl (fun acc b => acc * 256 + b) 0 :: bytesToWordsGo fuel (l.drop 4)

/-- Big-endian 32-bit words of a byte list. -/

def bytesToWords (l : List Nat) : List Nat := bytesToWordsGo l.length l

/-- SHA-1 message-schedule extension step. -/

def sha1ExtendGo : Nat → List Nat → List Nat
  | 0, w => w
  | n + 1, w =>
    let t := rotl32 ((w.getD (w.length - 3) 0) ^^^ (w.getD (w.length - 8) 0) ^^^
      (w.getD (w.length - 14) 0) ^^^ (w.getD (w.length - 16) 0)) 1
    sha1ExtendGo n (w ++ [t])

/-- Extend 16 words to the 80-word SHA-1 schedule. -/

def sha1Extend (w : List Nat) : List Nat := sha1ExtendGo 64 w

/-- SHA-1 round function. -/

def sha1F (i b c d : Nat) : Nat :=
  if i < 20 then (b &&& c) ||| ((b ^^^ 4294967295) &&& d)
  else if i < 40 then b ^^^ c ^^^ d
  else if i < 60 then (b &&& c) ||| (b &&& d) ||| (c &&& d)
  else b ^^^ c ^^^ d

/-- SHA-1 round constants. -/

def sha1K (i : Nat) : Nat :=
  if i < 20 then 1518500249 else if i < 40 then 1859775393
  else if i < 60 then 2400959708 else 3395469782

/-- The 80 SHA-1 rounds. -/

def sha1RoundsGo : Nat → List Nat → Nat × Nat × Nat × Nat × Nat → Nat × Nat × Nat × Nat × Nat
  | _, [], st => st
  | i, wi :: rest, (a, b, c, d, e) =>
    let tmp := (rotl32 a 5 + sha1F i b c d + e + sha1K i + wi) % 2 ^ 32
    sha1RoundsGo (i + 1) rest (tmp, a, rotl32 b 30, c, d)

/-- Process one 64-byte chunk. -/

def sha1Chunk (h : Nat × Nat × Nat × Nat × Nat) (chunk : List Nat) :
    Nat × Nat × Nat × Nat × Nat :=
  let w := sha1Extend (bytesToWords chunk)
  let (a, b, c, d, e) := sha1RoundsGo 0 w h
  match h with
  | (h0, h1, h2, h3, h4) =>
    ((h0 + a) % 2 ^ 32, (h1 + b) % 2 ^ 32, (h2 + c) % 2 ^ 32,
     (h3 + d) % 2 ^ 32, (h4 + e) % 2 ^ 32)

/-- Lower-case hex digit. -/

def hexDigit (n : Nat) : Char := "0123456789abcdef".toList.getD n '0'

/-- Eight-hex-digit rendering of a 32-bit word. -/

def word32Hex (x : Nat) : Str := (List.range 8).map (fun i => hexDigit (x / 2 ^ (4 * (7 - i)) % 16))

/-- `hashlib.sha1(s.encode("utf-8")).hexdigest()`. -/

def sha1Hex (s : Str) : Str :=
  let cs := chunks64 (sha1Pad (utf8Bytes s))
  match cs.foldl sha1Chunk (1732584193, 4023233417, 2562383102, 271733878, 3285377520) with
  | (h0, h1, h2, h3, h4) =>
    word32Hex h0 ++ word32Hex h1 ++ word32Hex h2 ++ word32Hex h3 ++ word32Hex h4

/-! ## The HTML page model -/

/-- One parsed element.  Pages are flat pre-order tables, so a node's parent
always has a smaller index and index order is document order.  `text` is the
node's own direct text. -/

structure Node where
  tag : Str
  classes : List Str
  attrs : List (Str × Str)
  text : Str
  parent : Option Nat
deriving Repr, DecidableEq

/-- A parsed page (`BeautifulSoup(r.text, "lxml")`). -/

structure Page where
  nodes : List Node
deriving Repr, DecidableEq

/-- The parse-tree parent of node `j`. -/

def parentOf (p : Page) (j : Nat) : Option Nat := (p.nodes.get? j).bind Node.parent

/-- Worker for `ancWalk`: follow parent pointers while they strictly
decrease (true of every pre-order table), with fuel for totality. -/

def ancWalkGo (p : Page) : Nat → Nat → List Nat
  | 0, _ => []
  | fuel + 1, j =>
    match parentOf p j with
    | some pj => if pj < j then pj :: ancWalkGo p fuel pj else []
    | none => []

/-- The ancestor chain of `j`, nearest parent first. -/

def ancWalk (p : Page) (j : Nat) : List Nat := ancWalkGo p j j

/-- `j` lies strictly inside the subtree of `root`. -/

def isDesc (p : Page) (root j : Nat) : Bool := decide (root ∈ ancWalk p j)

/-- Tag test. -/

def isTag (p : Page) (j : Nat) (t : Str) : Bool :=
  match p.nodes.get? j with
  | some n => decide (n.tag = t)
  | none => false

/-- CSS class test. -/

def hasClass (p : Page) (j : Nat) (cls : Str) : Bool :=
  match p.nodes.get? j with
  | some n => decide (cls ∈ n.classes)
  | none => false

/-- Attribute lookup, `el.get(name)`. -/

def attrOf (p : Page) (j : Nat) (key : Str) : Option Str :=
  (p.nodes.get? j).bind fun n => (n.attrs.find? (fun kv => decide (kv.1 = key))).map Prod.snd

/-- `a.get("href")`. -/

def hrefOf (p : Page) (j : Nat) : Option Str := attrOf p j "href".toList

/-- BeautifulSoup `root.find(...)` / `root.select_one(...)`: the first
descendant of `root` (in document order) satisfying the predicate. -/

def findDesc (p : Page) (root : Nat) (pred : Nat → Bool) : Option Nat :=
  (List.range p.nodes.length).find? (fun j => isDesc p root j && pred j)

/-- BeautifulSoup `el.find_next(...)`: the first node after `el` in document
order (descendants included) satisfying the predicate. -/

def findNextNode (p : Page) (i : Nat) (pred : Nat → Bool) : Option Nat :=
  (List.range p.nodes.length).find? (fun j => decide (i < j) && pred j)

/-- The text pieces of `i`'s subtree in document order. -/

def subtreeTexts (p : Page) (i : Nat) : List Str :=
  match p.nodes.get? i with
  | none => []
  | some n =>
    n.text :: ((List.range p.nodes.length).filter (fun j => isDesc p i j)).map
      (fun j => ((p.nodes.get? j).map Node.text).getD [])

/-- `el.get_text(" ", strip=True)`: strip each piece, drop empties, join with
single spaces. -/

def getTextOf (p : Page) (i : Nat) : Str :=
  joinSp (((subtreeTexts p i).map pyStrip).filter (fun t => !t.isEmpty))

/-! ## `find_image_url` -/

/-- `img.get("data-src") or img.get("src")`. -/

def imgSrcRaw (p : Page) (j : Nat) : Option Str :=
  pyOr (attrOf p j "data-src".toList) (attrOf p j "src".toList)

/-- `src and not src.startswith("data:")`. -/

def usableSrc : Option Str → Bool
  | some s => !s.isEmpty && !startsWithS "data:".toList s
  | none => false

/-- One probe of `find_image_url`: the first `<img>` in `root`'s subtree,
kept only if its source is usable, resolved against the base. -/

def imgCandidate (p : Page) (base : Str) (root : Nat) : Option Str :=
  match findDesc p root (fun j => isTag p j "img".toList) with
  | some j =>
    if usableSrc (imgSrcRaw p j) then some (urljoin base ((imgSrcRaw p j).getD []))
    else none
  | none => none

/-- Step 3 of `find_image_url`: `a.find_next("img")`, same source test. -/

def nextImgCandidate (p : Page) (base : Str) (a : Nat) : Option Str :=
  match findNextNode p a (fun j => isTag p j "img".toList) with
  | some j =>
    if usableSrc (imgSrcRaw p j) then some (urljoin base ((imgSrcRaw p j).getD []))
    else none
  | none => none

/-- The parent-walk loop of `find_image_url` over a list of ancestors. -/

def firstImgCandidate (p : Page) (base : Str) : List Nat → Option Str
  | [] => none
  | q :: rest =>
    match imgCandidate p base q with
    | some u => some u
    | none => firstImgCandidate p base rest

/-- `find_image_url(a, site_base)`: probe the anchor itself, then up to four
ancestors, then the next `<img>` in document order. -/

def find_image_url (p : Page) (a : Nat) (base : Str) : Option Str :=
  match imgCandidate p base a with
  | some u => some u
  | none =>
    match firstImgCandidate p base ((ancWalk p a).take 4) with
    | some u => some u
    | none => nextImgCandidate p base a

/-! ## The title fallback chain of `fetch_items` -/

/-- `a.select_one("." ++ cls)`. -/

def select_one_class (p : Page) (a : Nat) (cls : Str) : Option Nat :=
  findDesc p a (fun j => hasClass p j cls)

/-- Steps 1-5 of the title resolution in `fetch_items` (before the
placeholder): title-classed descendant, `h5` title-classed descendant, the
anchor's own text, next title-classed element, `img` alt. -/

def titleChain (p : Page) (a : Nat) : Str :=
  let t1 : Str :=
    match select_one_class p a "tn-title".toList with
    | some el => getTextOf p el
    | none =>
      match findDesc p a (fun j => isTag p j "h5".toList && hasClass p j "tn-title".toList) with
      | some h5 => getTextOf p h5
      | none => []
  let t2 := if t1.isEmpty then getTextOf p a else t1
  let t3 :=
    if t2.isEmpty then
      match findNextNode p a (fun j => hasClass p j "tn-title".toList) with
      | some sib => getTextOf p sib
      | none => t2
    else t2
  if t3.isEmpty then
    match findDesc p a (fun j => isTag p j "img".toList) with
    | some img =>
      match attrOf p img "alt".toList with
      | some alt => if alt.isEmpty then t3 else pyStrip alt
      | none => t3
    | none => t3
  else t3

/-- The resolved title: the fallback chain, else the placeholder
`"Bez tytułu"`. -/

def resolveTitle (p : Page) (a : Nat) : Str :=
  let t := titleChain p a
  if t.isEmpty then "Bez tytułu".toList else t

/-! ## Link collection (`ARTICLE_LINK_SELECTORS` and the `clean` loop) -/

/-- `.tn-img a[href^='/news/']`: an anchor with a matching href inside a
`tn-img`-classed container. -/

def matchesSel1 (p : Page) (j : Nat) : Bool :=
  isTag p j "a".toList &&
  (match hrefOf p j with
   | some h => startsWithS "/news/".toList h
   | none => false) &&
  (ancWalk p j).any (fun k => hasClass p k "tn-img".toList)

/-- `.bg-white a[href^='/news/']`. -/

def matchesSel2 (p : Page) (j : Nat) : Bool :=
  isTag p j "a".toList &&
  (match hrefOf p j with
   | some h => startsWithS "/news/".toList h
   | none => false) &&
  (ancWalk p j).any (fun k => hasClass p k "bg-white".toList)

/-- `a[href^='/news/']` (the fallback strategy). -/

def matchesSel3 (p : Page) (j : Nat) : Bool :=
  isTag p j "a".toList &&
  (match hrefOf p j with
   | some h => startsWithS "/news/".toList h
   | none => false)

/-- `soup.select(sel)`: all matches in document order. -/

def selectMatches (p : Page) (pred : Nat → Bool) : List Nat :=
  (List.range p.nodes.length).filter pred

/-- The aggregation loop over `ARTICLE_LINK_SELECTORS`: concatenate the
matches of all three strategies, in strategy order. -/

def collectedAnchors (p : Page) : List Nat :=
  selectMatches p (matchesSel1 p) ++ selectMatches p (matchesSel2 p) ++
    selectMatches p (matchesSel3 p)

/-- The `seen_href`/`clean` loop: skip missing or empty hrefs, keep the first
anchor carrying each raw href. -/

def cleanGo (p : Page) : List Nat → List Str → List Nat
  | [], _ => []
  | a :: rest, seen =>
    match hrefOf p a with
    | none => cleanGo p rest seen
    | some h =>
      if h.isEmpty then cleanGo p rest seen
      else if h ∈ seen then cleanGo p rest seen
      else a :: cleanGo p rest (h :: seen)

/-- Union of all selector strategies, deduplicated by raw href. -/

def cleanAnchors (p : Page) : List Nat := cleanGo p (collectedAnchors p) []

/-- Build one listing-pass item from a qualifying anchor. -/

def buildItem (p : Page) (a : Nat) : Item :=
  let href := (hrefOf p a).getD []
  let link := urljoin SITE href
  let img := find_image_url p a SITE
  { title := resolveTitle p a
    link := link
    guid := sha1Hex link
    image := img
    mime := if optTruthy img then img.map guess_mime else none }

/-- The per-page listing pass of `fetch_items`: anchors failing `ID_LINK`
are discarded, the rest become items. -/

def itemsOfPage (p : Page) : List Item :=
  (cleanAnchors p).filterMap fun a =>
    match hrefOf p a with
    | some h => if ID_LINK_match h then some (buildItem p a) else none
    | none => none

/-! ## `build_lead_from_paras` -/

/-- The chunk-collection loop of `build_lead_from_paras`: paragraphs shorter
than 30 characters are skipped; a chunk is appended and then the loop breaks
once the running total (text lengths plus one separator each) reaches the
budget.  `paras` holds each paragraph's `get_text(" ", strip=True)`. -/

def collectChunks (maxChars : Nat) : List Str → Nat → List Str
  | [], _ => []
  | t :: rest, total =>
    if t.isEmpty || t.length < 30 then collectChunks maxChars rest total
    else if maxChars ≤ total + t.length + 1 then [t]
    else t :: collectChunks maxChars rest (total + t.length + 1)

/-- `cut.rsplit(" ", 1)[0]`: everything before the last space. -/

def beforeLastSpace (l : Str) : Str :=
  ((l.reverse.dropWhile (fun c => c ≠ ' ')).drop 1).reverse

/-- The truncation step of `build_lead_from_paras`: cut at the budget, pull
back to the last space when the cut contains one, right-strip, append the
ellipsis. -/

def truncateAtBudget (lead : Str) (maxChars : Nat) : Str :=
  let cut := lead.take maxChars
  pyRstrip (if ' ' ∈ cut then beforeLastSpace cut else cut) ++ ['…']

/-- `build_lead_from_paras(soup, max_chars)` on the selected paragraph
texts. -/

def build_lead_from_paras (paras : List Str) (maxChars : Nat) : Option Str :=
  let chunks := collectChunks maxChars paras 0
  if chunks.isEmpty then none
  else
    let lead := joinSp chunks
    if maxChars < lead.length then some (truncateAtBudget lead maxChars) else some lead

/-- The text the builder assembles before the length check. -/

def joinedCollected (maxChars : Nat) (paras : List Str) : Str :=
  joinSp (collectChunks maxChars paras 0)

/-- Modelled from the claim's words: the joined text cut at the budget,
pulled back to the last whitespace (space) boundary when the cut contains
one, with trailing whitespace trimmed. -/

def wordBoundaryCut (s : Str) (maxChars : Nat) : Str :=
  pyRstrip (if ' ' ∈ s.take maxChars then beforeLastSpace (s.take maxChars) else s.take maxChars)

/-! ## Date handling (`PL_MONTHS`, `parse_polish_date`, `to_rfc2822`) -/

/-- The fixed Polish month table (including diacritic-stripped spellings). -/

def PL_MONTHS : List (Str × Nat) :=
  [("stycznia".toList, 1), ("lutego".toList, 2), ("marca".toList, 3),
   ("kwietnia".toList, 4), ("maja".toList, 5), ("czerwca".toList, 6),
   ("lipca".toList, 7), ("sierpnia".toList, 8), ("września".toList, 9),
   ("wrzesnia".toList, 9), ("października".toList, 10),
   ("pazdziernika".toList, 10), ("listopada".toList, 11), ("grudnia".toList, 12)]

/-- `PL_MONTHS.get(month_name)`. -/

def lookupMonth (s : Str) : Option Nat :=
  (PL_MONTHS.find? (fun kv => decide (kv.1 = s))).map Prod.snd

/-- Gregorian leap year, as `datetime` uses. -/

def isLeapYear (y : Nat) : Bool := (y % 4 = 0 && y % 100 ≠ 0) || y % 400 = 0

/-- Days in a month of the proleptic Gregorian calendar. -/

def daysInMonth (y m : Nat) : Nat :=
  if m = 2 then (if isLeapYear y then 29 else 28)
  else if m = 4 || m = 6 || m = 9 || m = 11 then 30
  else 31

/-- The validation performed by the `datetime(year, month, day, ...)`
constructor: `ValueError` outside these bounds. -/

def validDate (y m d : Nat) : Bool :=
  1 ≤ y && y ≤ 9999 && 1 ≤ m && m ≤ 12 && 1 ≤ d && d ≤ daysInMonth y m

/-- Days in all years before `y` (proleptic Gregorian). -/

def daysBeforeYear (y : Nat) : Nat :=
  let yp := y - 1
  yp * 365 + yp / 4 - yp / 100 + yp / 400

/-- Days in the months of `y` strictly before month `m`. -/

def daysBeforeMonth (y m : Nat) : Nat :=
  ((List.range (m - 1)).map (fun k => daysInMonth y (k + 1))).sum

/-- `date.toordinal()`: 0001-01-01 is day 1. -/

def toOrdinal (y m d : Nat) : Nat := daysBeforeYear y + daysBeforeMonth y m + d

/-- `%a` weekday abbreviations, Monday first (`date.weekday()` order). -/

def WEEKDAYS_EN : List Str :=
  ["Mon".toList, "Tue".toList, "Wed".toList, "Thu".toList, "Fri".toList,
   "Sat".toList, "Sun".toList]

/-- `%b` month abbreviations (C locale). -/

def MONTHS_EN : List Str :=
  ["Jan".toList, "Feb".toList, "Mar".toList, "Apr".toList, "May".toList,
   "Jun".toList, "Jul".toList, "Aug".toList, "Sep".toList, "Oct".toList,
   "Nov".toList, "Dec".toList]

/-- Decimal digits of a natural number. -/

def natToStr (n : Nat) : Str := Nat.toDigits 10 n

/-- Two-digit zero-padded field. -/

def pad2 (n : Nat) : Str := if n < 10 then '0' :: natToStr n else natToStr n

/-- Four-digit zero-padded field. -/

def pad4 (n : Nat) : Str :=
  let s := natToStr n
  List.replicate (4 - s.length) '0' ++ s

/-- `to_rfc2822(dt)`: `dt.strftime("%a, %d %b %Y %H:%M:%S +0000")`. -/

def to_rfc2822 (y m d hh mi ss : Nat) : Str :=
  WEEKDAYS_EN.getD ((toOrdinal y m d + 6) % 7) [] ++ ", ".toList ++
  pad2 d ++ [' '] ++ MONTHS_EN.getD (m - 1) [] ++ [' '] ++ pad4 y ++ [' '] ++
  pad2 hh ++ [':'] ++ pad2 mi ++ [':'] ++ pad2 ss ++ " +0000".toList

/-- The letter class `[A-Za-ząćęłńóśźżĄĆĘŁŃÓŚŹŻ]` of the date regex. -/

def isPolishLetter (c : Char) : Bool :=
  ('A' ≤ c && c ≤ 'Z') || ('a' ≤ c && c ≤ 'z') ||
    decide (c ∈ "ąćęłńóśźżĄĆĘŁŃÓŚŹŻ".toList)

/-- Value of a run of decimal digits. -/

def digitsToNat (l : Str) : Nat := l.foldl (fun acc c => acc * 10 + (c.toNat - 48)) 0

/-- The part `\s+([letters]+)\s+(\d{4})` of the date regex, applied right
after the day digits; returns the month-name run and the year. -/

def dmyTail (l : Str) : Option (Str × Nat) :=
  let ws1 := l.takeWhile isPyWs
  if ws1.isEmpty then none
  else
    let l1 := l.drop ws1.length
    let letters := l1.takeWhile isPolishLetter
    if letters.isEmpty then none
    else
      let l2 := l1.drop letters.length
      let ws2 := l2.takeWhile isPyWs
      if ws2.isEmpty then none
      else
        let l3 := l2.drop ws2.length
        let ys := l3.take 4
        if decide (ys.length = 4) && ys.all Char.isDigit then
          some (letters, digitsToNat ys)
        else none

/-- `re.search(r"(\d{1,2})\s+([letters]+)\s+(\d{4})", text)`: try each start
position left to right; at a position, a two-digit day is preferred over a
one-digit day (greedy `\d{1,2}` with backtracking). -/

def dmySearch : Str → Option (Nat × Str × Nat)
  | [] => none
  | c :: rest =>
    (if c.isDigit then
      match rest with
      | c2 :: rest2 =>
        if c2.isDigit then
          match dmyTail rest2 with
          | some (mn, y) => some (digitsToNat [c, c2], mn, y)
          | none =>
            match dmyTail rest with
            | some (mn, y) => some (digitsToNat [c], mn, y)
            | none => none
        else
          match dmyTail rest with
          | some (mn, y) => some (digitsToNat [c], mn, y)
          | none => none
      | [] => none
     else none).orElse (fun _ => dmySearch rest)

/-- `parse_polish_date(text)`: regex search, lowercased month lookup in
`PL_MONTHS`, guarded `datetime(year, month, day, 12, 0, 0)`, RFC-2822
formatting; any failure yields `None`. -/

def parse_polish_date (s : Str) : Option Str :=
  if s.isEmpty then none
  else
    match dmySearch s with
    | none => none
    | some (day, monthName, year) =>
      match lookupMonth (strToLower monthName) with
      | none => none
      | some m =>
        if validDate year m day then some (to_rfc2822 year m day 12 0 0) else none

/-! ## ISO date strings (`datetime.fromisoformat` as the script uses it) -/

/-- Simplified model of `datetime.fromisoformat`: `YYYY-MM-DD`, optionally
followed by `T` or a space and `HH:MM[:SS]`, optionally followed by a UTC
offset (retained only as far as the script keeps it, i.e. not at all: both
branches format the naive clock time, the runner's local timezone being
UTC). -/

def parseIsoDT (s : Str) : Option (Nat × Nat × Nat × Nat × Nat × Nat) :=
  let y := s.take 4
  let rest1 := s.drop 4
  if !(decide (y.length = 4) && y.all Char.isDigit && decide (rest1.take 1 = ['-'])) then none
  else
    let mo := (rest1.drop 1).take 2
    let rest2 := (rest1.drop 1).drop 2
    if !(decide (mo.length = 2) && mo.all Char.isDigit && decide (rest2.take 1 = ['-'])) then none
    else
      let d := (rest2.drop 1).take 2
      let rest3 := (rest2.drop 1).drop 2
      if !(decide (d.length = 2) && d.all Char.isDigit) then none
      else
        match rest3 with
        | [] => some (digitsToNat y, digitsToNat mo, digitsToNat d, 0, 0, 0)
        | c :: tl =>
          if c = 'T' || c = ' ' then
            let hh := tl.take 2
            let r4 := tl.drop 2
            if !(decide (hh.length = 2) && hh.all Char.isDigit && decide (r4.take 1 = [':'])) then none
            else
              let mi := (r4.drop 1).take 2
              let r5 := (r4.drop 1).drop 2
              if !(decide (mi.length = 2) && mi.all Char.isDigit) then none
              else
                match r5 with
                | [] => some (digitsToNat y, digitsToNat mo, digitsToNat d, digitsToNat hh, digitsToNat mi, 0)
                | ':' :: tl2 =>
                  let ss := tl2.take 2
                  let r6 := tl2.drop 2
                  if !(decide (ss.length = 2) && ss.all Char.isDigit) then none
                  else if r6.isEmpty || decide (r6.take 1 = ['+']) || decide (r6.take 1 = ['-']) then
                    some (digitsToNat y, digitsToNat mo, digitsToNat d, digitsToNat hh, digitsToNat mi, digitsToNat ss)
                  else none
                | '+' :: _ => some (digitsToNat y, digitsToNat mo, digitsToNat d, digitsToNat hh, digitsToNat mi, 0)
                | '-' :: _ => some (digitsToNat y, digitsToNat mo, digitsToNat d, digitsToNat hh, digitsToNat mi, 0)
                | _ => none
          else none

/-- The `fromisoformat` + `to_rfc2822` combination used for JSON-LD and meta
dates (a stripped trailing `Z` models `replace("Z", "+00:00")`).  Parse
failure is the swallowed `ValueError`. -/

def isoToRfc (s0 : Str) : Option Str :=
  let s := if endsWithS "Z".toList s0 then s0.dropLast else s0
  match parseIsoDT s with
  | some (y, mo, d, hh, mi, ss) =>
    if validDate y mo d && hh < 24 && mi < 60 && ss < 60 then
      some (to_rfc2822 y mo d hh mi ss)
    else none
  | none => none

/-! ## JSON-LD extraction (`extract_from_jsonld`) -/

/-- One JSON-LD object, holding the fields the script reads.  `typ` is the
`@type` (or `type`) entry, a type list already collapsed to its first string
entry as the script does. -/

structure LdObj where
  typ : Option Str
  datePublished : Option Str
  dateCreated : Option Str
  description : Option Str
  articleBody : Option Str
deriving Repr, DecidableEq

/-- Substring test (Python `in` on strings). -/

def isSubstrOf (needle hay : Str) : Bool :=
  (List.range (hay.length + 1)).any (fun i => startsWithS needle (hay.drop i))

/-- The type filter: a truthy string type containing `Article` or
`NewsArticle`. -/

def ldTypeOk (o : LdObj) : Bool :=
  match o.typ with
  | some t =>
    !t.isEmpty && (isSubstrOf "Article".toList t || isSubstrOf "NewsArticle".toList t)
  | none => false

/-- Processing of one JSON-LD object against the running `(pub, lead)`
state. -/

def ldStep (st : Option Str × Option Str) (o : LdObj) : Option Str × Option Str :=
  let (pub, lead) := st
  if !ldTypeOk o then (pub, lead)
  else
    let dp := pyOr o.datePublished o.dateCreated
    let pub' :=
      if optTruthy dp && !optTruthy pub then
        match isoToRfc (dp.getD []) with
        | some r => some r
        | none => pub
      else pub
    let txt := pyOr o.articleBody o.description
    let lead' :=
      if optTruthy txt && !optTruthy lead then some (collapseWs (txt.getD [])) else lead
    (pub', lead')

/-- Worker for `extract_from_jsonld`: process script tags in order and stop
after the first tag that produced a date or a lead. -/

def extractLdGo : List (Option (List LdObj)) → Option Str × Option Str → Option Str × Option Str
  | [], st => st
  | none :: rest, st => extractLdGo rest st
  | some objs :: rest, st =>
    let st' := objs.foldl ldStep st
    if optTruthy st'.1 || optTruthy st'.2 then st' else extractLdGo rest st'

/-- `extract_from_jsonld(soup)`. -/

def extract_from_jsonld (scripts : List (Option (List LdObj))) : Option Str × Option Str :=
  extractLdGo scripts (none, none)

/-! ## Detail pages and `fetch_article_details` -/

/-- A parsed detail page, holding exactly the features
`fetch_article_details` inspects.  `jsonld` lists the JSON-LD script tags
(`none` = empty or unparseable JSON); `ampHref` is the `link[rel=amphtml]`
href; `metaPublished` is the first tag of the published-time meta cascade
(outer `none` = no tag, inner option = its `content`); `newsDateText` /
`timeText` are the `get_text` of `.news-date` / the first `time` element
when present; `paras` are the lead-selector paragraph texts in source order;
`metaDescription` is the `meta[name=description]` tag. -/

structure DetailPage where
  jsonld : List (Option (List LdObj))
  ampHref : Option Str
  metaPublished : Option (Option Str)
  newsDateText : Option Str
  timeText : Option Str
  paras : List Str
  metaDescription : Option (Option Str)
deriving Repr

/-- Terminal-punctuation test `re.search(r"[.!?…]$", lead)`. -/

def endsPunct (l : Str) : Bool :=
  match l.getLast? with
  | some c => c = '.' || c = '!' || c = '?' || c = '…'
  | none => false

/-- `fetch_article_details(url)`: returns `(pubDate, lead)` after the
JSON-LD → AMP → meta/heuristic cascade.  A failed fetch of the primary page
returns `(None, None)` at once; a failed AMP fetch only skips the AMP
stage. -/

def fetch_article_details (fetch : Str → Option DetailPage) (url : Str) :
    Option Str × Option Str :=
  match fetch url with
  | none => (none, none)
  | some soup =>
    let jraw := extract_from_jsonld soup.jsonld
    let pub0 : Option Str := if optTruthy jraw.1 then jraw.1 else none
    let lead0 : Option Str :=
      if optTruthy jraw.2 && decide (60 < (jraw.2.getD []).length) then jraw.2 else none
    let st1 : Option Str × Option Str :=
      if !optTruthy pub0 || !optTruthy lead0 then
        if optTruthy soup.ampHref then
          match fetch (urljoin url (soup.ampHref.getD [])) with
          | some ampSoup =>
            let pubA :=
              if !optTruthy pub0 then
                (let ares := extract_from_jsonld ampSoup.jsonld
                 if optTruthy ares.1 then ares.1 else pub0)
              else pub0
            let leadA :=
              if !optTruthy lead0 then
                match build_lead_from_paras ampSoup.paras 800 with
                | some aLead => if 60 < aLead.length then some aLead else lead0
                | none => lead0
              else lead0
            (pubA, leadA)
          | none => (pub0, lead0)
        else (pub0, lead0)
      else (pub0, lead0)
    let pub2 : Option Str :=
      if !optTruthy st1.1 then
        match soup.metaPublished with
        | some (some c) =>
          if !c.isEmpty then
            match isoToRfc (pyStrip c) with
            | some r => some r
            | none => none
          else none
        | _ => none
      else st1.1
    let pub3 : Option Str :=
      if !optTruthy pub2 then
        match soup.newsDateText.orElse (fun _ => soup.timeText) with
        | some txt => parse_polish_date txt
        | none => pub2
      else pub2
    let lead2 : Option Str :=
      if !optTruthy st1.2 then
        let lb := build_lead_from_paras soup.paras 800
        if optTruthy lb then lb
        else
          match soup.metaDescription with
          | some (some c) => if !c.isEmpty then some (pyStrip c) else lb
          | _ => lb
      else st1.2
    let leadF : Option Str :=
      match lead2 with
      | some l =>
        if !l.isEmpty then
          let lc := collapseWs l
          if lc.length < 80 && !endsPunct lc then none else some lc
        else lead2
      | none => none
    (pub3, leadF)

/-! ## The enrichment loop and `fetch_items` -/

/-- One iteration of the enrichment loop: fetch the item's detail page and
set `pubDate` / `lead` when truthy values came back. -/

def enrichOne (fetch : Str → Option DetailPage) (it : Item) : Item :=
  let res := fetch_article_details fetch it.link
  let it1 := if optTruthy res.1 then { it with pubDate := res.1 } else it
  if optTruthy res.2 then { it1 with lead := res.2 } else it1

/-- The `for idx, it in enumerate(unique)` loop with its
`if idx >= DETAIL_LIMIT: break`. -/

def enrichDetails (fetch : Str → Option DetailPage) (cap : Nat) :
    List Item → Nat → List Item
  | [], _ => []
  | it :: rest, idx =>
    if cap ≤ idx then it :: rest
    else enrichOne fetch it :: enrichDetails fetch cap rest (idx + 1)

/-- The outer loop of `fetch_items` over `SOURCE_URLS`: failed listing
fetches are skipped with a warning, the rest contribute their items in page
order. -/

def collectAllItems (pages : List (Option Page)) : List Item :=
  pages.foldl
    (fun acc op =>
      match op with
      | none => acc
      | some p => acc ++ itemsOfPage p) []

/-- `fetch_items()`: per-page collection (failed listing fetches skipped),
link-deduplication, capped enrichment, `MAX_ITEMS` cut. -/

def fetch_items (pages : List (Option Page)) (fetch : Str → Option DetailPage) :
    List Item :=
  (enrichDetails fetch DETAIL_LIMIT (dedupByLink (collectAllItems pages)) 0).take MAX_ITEMS

/-! ## C7: the image fallback chain -/

/-- First defined entry of a list of optional results. -/

def firstSome : List (Option Str) → Option Str
  | [] => none
  | none :: rest => firstSome rest
  | some x :: _ => some x

/-- The candidates `find_image_url` actually examines: the first `<img>` of
the anchor, the first `<img>` of each of up to four ancestors, the next
`<img>` in document order — one probe per scope. -/

def examinedImageCandidates (p : Page) (a : Nat) (base : Str) : List (Option Str) :=
  imgCandidate p base a :: ((ancWalk p a).take 4).map (imgCandidate p base) ++
    [nextImgCandidate p base a]

/-- Modelled from the claim's words: does some image with a usable, non-data
source exist in the chain's scopes (inside the anchor, inside one of up to
four ancestors, or as the nearest following image)? -/

def chainHasUsableCandidate (p : Page) (a : Nat) : Bool :=
  (List.range p.nodes.length).any (fun j =>
    isDesc p a j && isTag p j "img".toList && usableSrc (imgSrcRaw p j)) ||
  ((ancWalk p a).take 4).any (fun q =>
    (List.range p.nodes.length).any (fun j =>
      isDesc p q j && isTag p j "img".toList && usableSrc (imgSrcRaw p j))) ||
  (match findNextNode p a (fun j => isTag p j "img".toList) with
   | some j => usableSrc (imgSrcRaw p j)
   | none => false)

/-- The counterexample page: an anchor containing a `data:` image followed by
a usable image. -/

def imgChainPage : Page :=
  { nodes :=
      [ { tag := "div".toList, classes := [], attrs := [], text := [], parent := none },
        { tag := "a".toList, classes := [],
          attrs := [("href".toList, "/news/x,1".toList)], text := [], parent := some 0 },
        { tag := "img".toList, classes := [],
          attrs := [("src".toList, "data:image/gif;base64,R0".toList)], text := [],
          parent := some 1 },
        { tag := "img".toList, classes := [],
          attrs := [("src".toList, "/img/good.jpg".toList)], text := [],
          parent := some 1 } ] }

/-! ## C8: lead truncation -/

/-- Fixture for the truncation witness: one 850-character paragraph with a
space after 400 characters. -/

def leadFixture : List Str := [List.replicate 400 'a' ++ ' ' :: List.replicate 449 'b']

/-! ## C2: the selector union -/

/-- Witness fixture: one anchor only inside a `bg-white` tile, one anchor in
no tile at all. -/

def selectorFixturePage : Page :=
  { nodes :=
      [ { tag := "body".toList, classes := [], attrs := [], text := [], parent := none },
        { tag := "div".toList, classes := ["bg-white".toList], attrs := [], text := [],
          parent := some 0 },
        { tag := "a".toList, classes := [],
          attrs := [("href".toList, "/news/secondary-tile,11".toList)], text := [],
          parent := some 1 },
        { tag := "a".toList, classes := [],
          attrs := [("href".toList, "/news/fallback-anchor,22".toList)], text := [],
          parent := some 0 } ] }

/-! ## C6: the title fallback order -/

/-- Witness fixture: an anchor with its own raw text whose only title-classed
descendant is an `h5` heading. -/

def headingFixturePage : Page :=
  { nodes :=
      [ { tag := "body".toList, classes := [], attrs := [], text := [], parent := none },
        { tag := "a".toList, classes := [],
          attrs := [("href".toList, "/news/heading,7".toList)],
          text := "raw anchor text".toList, parent := some 0 },
        { tag := "h5".toList, classes := ["tn-title".toList], attrs := [],
          text := "Heading Title".toList, parent := some 1 } ] }

/-! ## C9: the title placeholder -/

/-- A bare anchor: no title-classed element, no text, no image. -/

def emptyAnchorPage : Page :=
  { nodes :=
      [ { tag := "a".toList, classes := [],
          attrs := [("href".toList, "/news/x,1".toList)], text := [],
          parent := none } ] }

/-! ## C10: totality and guarding of the date parser -/

/-! ## C5: the enrichment cap -/

/-- Plain witness items (distinct links, no enrichment fields). -/

def wItem (k : Nat) : Item :=
  { title := "t".toList, link := "/news/w,".toList ++ natToStr k, guid := "g".toList,
    image := none, mime := none }

/-- A detail fetcher that always fails. -/

def failFetch : Str → Option DetailPage := fun _ => none

/-! ## C4: isolation of a detail-fetch failure -/

/-- An empty detail page (all extraction sources absent). -/

def dpEmpty : DetailPage :=
  { jsonld := [], ampHref := none, metaPublished := none, newsDateText := none,
    timeText := none, paras := [], metaDescription := none }

/-- Fails exactly on the first witness item's detail page. -/

def failOnFirst : Str → Option DetailPage :=
  fun v => if v = (wItem 1).link then none else some dpEmpty

/-! ## C1: uniqueness of links in the final output -/

/-- Witness items: two distinct items sharing one link, one separate. -/

def itemA : Item :=
  { title := "a".toList, link := "L1".toList, guid := [], image := none, mime := none }

/-- Second witness item, same link as `itemA`. -/

def itemB : Item :=
  { title := "b".toList, link := "L1".toList, guid := [], image := none, mime := none }

/-- Third witness item, fresh link. -/

def itemC : Item :=
  { title := "c".toList, link := "L2".toList, guid := [], image := none, mime := none }

/-! ## Theorems -/

theorem dedupGo_sublist (its : List Item) (seen : List Str) :
    (dedupGo its seen).Sublist its := by
  induction its generalizing seen with
  | nil => simp [dedupGo]
  | cons it rest ih =>
    simp only [dedupGo]
    split
    · exact (ih seen).cons it
    · exact (ih (it.link :: seen)).cons₂ it

theorem link_not_mem_seen_of_mem_dedupGo {x : Item} :
    ∀ (its : List Item) (seen : List Str), x ∈ dedupGo its seen → x.link ∉ seen := by
  intro its
  induction its with
  | nil => intro seen h; simp [dedupGo] at h
  | cons it rest ih =>
    intro seen h
    simp only [dedupGo] at h
    split at h
    · exact ih seen h
    · rcases List.mem_cons.1 h with rfl | h
      · assumption
      · intro hmem
        exact ih (it.link :: seen) h (List.mem_cons_of_mem _ hmem)

theorem dedupGo_pairwise (its : List Item) (seen : List Str) :
    (dedupGo its seen).Pairwise (fun a b => a.link ≠ b.link) := by
  induction its generalizing seen with
  | nil => simp [dedupGo]
  | cons it rest ih =>
    simp only [dedupGo]
    split
    · exact ih seen
    · refine List.Pairwise.cons ?_ (ih (it.link :: seen))
      intro y hy heq
      exact link_not_mem_seen_of_mem_dedupGo rest (it.link :: seen) hy
        (heq ▸ List.mem_cons_self _ _)

theorem dedupGo_first {x : Item} :
    ∀ (its : List Item) (seen : List Str), x ∈ dedupGo its seen →
      its.find? (fun y => decide (y.link = x.link)) = some x ∨ x.link ∈ seen := by
  intro its
  induction its with
  | nil => intro seen h; simp [dedupGo] at h
  | cons it rest ih =>
    intro seen h
    simp only [dedupGo] at h
    split at h
    · rcases ih seen h with hfind | hseen
      · by_cases hl : it.link = x.link
        · exact Or.inr (hl ▸ ‹it.link ∈ seen›)
        · left
          rw [List.find?_cons_of_neg _ (by simpa using hl)]
          exact hfind
      · exact Or.inr hseen
    · rcases List.mem_cons.1 h with rfl | h
      · left
        exact List.find?_cons_of_pos _ (by simp)
      · have hnot := link_not_mem_seen_of_mem_dedupGo rest (it.link :: seen) h
        have hne : it.link ≠ x.link := fun he => hnot (he ▸ List.mem_cons_self _ _)
        rcases ih (it.link :: seen) h with hfind | hseen
        · left
          rw [List.find?_cons_of_neg _ (by simpa using hne)]
          exact hfind
        · rcases List.mem_cons.1 hseen with he | hs
          · exact absurd (he ▸ List.mem_cons_self x.link seen) (fun _ => hne he.symm)
          · exact Or.inr hs

theorem dedupGo_covers {it : Item} :
    ∀ (its : List Item) (seen : List Str), it ∈ its → it.link ∉ seen →
      ∃ x ∈ dedupGo its seen, x.link = it.link := by
  intro its
  induction its with
  | nil => intro seen h; simp at h
  | cons hd rest ih =>
    intro seen hmem hns
    simp only [dedupGo]
    rcases List.mem_cons.1 hmem with rfl | hmem
    · split
      · exact absurd ‹it.link ∈ seen› hns
      · exact ⟨it, List.mem_cons_self _ _, rfl⟩
    · split
      · exact ih seen hmem hns
      · by_cases he : it.link = hd.link
        · exact ⟨hd, List.mem_cons_self _ _, he.symm⟩
        · have hns' : it.link ∉ hd.link :: seen := by
            intro h; rcases List.mem_cons.1 h with h | h
            exacts [he h, hns h]
          obtain ⟨x, hx, hlx⟩ := ih (hd.link :: seen) hmem hns'
          exact ⟨x, List.mem_cons_of_mem _ hx, hlx⟩

/-- C3: the canonical-article filter accepts exactly the hrefs of shape
`/news/` ++ non-empty slug ++ `,` ++ one or more digits; in particular
`/news/example-article,59675` is accepted and `/news/wydarzenia-p2` is
rejected; and every item of the listing pass stems from an anchor whose href
passed the filter (failures are discarded before item construction). -/
theorem id_link_match_iff_canonical :
    (∀ s : Str, ID_LINK_match s = true ↔
      ∃ slug ds, s = "/news/".toList ++ (slug ++ ',' :: ds) ∧
        slug ≠ [] ∧ ds ≠ [] ∧ ds.all Char.isDigit = true) ∧
    (ID_LINK_match "/news/example-article,59675".toList = true ∧
      ID_LINK_match "/news/wydarzenia-p2".toList = false) ∧
    (∀ (p : Page) (it : Item), it ∈ itemsOfPage p →
      ∃ a ∈ cleanAnchors p, ∃ h, hrefOf p a = some h ∧ ID_LINK_match h = true ∧
        it = buildItem p a) := by
  refine ⟨?_, ⟨by decide, by decide⟩, ?_⟩
  case refine_2 =>
    intro p it hit
    unfold itemsOfPage at hit
    rw [List.mem_filterMap] at hit
    obtain ⟨a, ha, hfa⟩ := hit
    cases hha : hrefOf p a with
    | none => rw [hha] at hfa; simp at hfa
    | some h =>
      simp only [hha] at hfa
      by_cases hid : ID_LINK_match h = true
      · rw [if_pos hid] at hfa
        exact ⟨a, ha, h, hha, hid, (Option.some.inj hfa).symm⟩
      · rw [if_neg hid] at hfa
        simp at hfa
  intro s
  constructor
  · intro h
    simp only [ID_LINK_match, Bool.and_eq_true, startsWithS] at h
    obtain ⟨hpre, hany⟩ := h
    obtain ⟨t, ht⟩ := (List.isPrefixOf_iff_prefix.1 hpre)
    have hdrop : s.drop 6 = t := by
      rw [← ht]
      have : ("/news/".toList ++ t).drop ("/news/".toList).length = t :=
        List.drop_left _ _
      simpa using this
    rw [hdrop, List.any_eq_true] at hany
    obtain ⟨i, hi, hmatch⟩ := hany
    simp only [Bool.and_eq_true, decide_eq_true_eq, digitsPlus,
      Bool.not_eq_true', List.isEmpty_eq_false] at hmatch
    obtain ⟨⟨hipos, hsplit⟩, hne, hdig⟩ := hmatch
    refine ⟨t.take i, t.drop (i + 1), ?_, ?_, hne, hdig⟩
    · rw [← ht]
      congr 1
      conv_lhs => rw [← List.take_append_drop i t]
      rw [hsplit]
    · have hlen : (t.take i).length = i := by
        rw [List.length_take]
        exact Nat.min_eq_left (Nat.le_of_lt (List.mem_range.1 hi))
      intro hnil
      rw [hnil] at hlen
      simp at hlen
      omega
  · rintro ⟨slug, ds, rfl, hslug, hds, hdig⟩
    simp only [ID_LINK_match, Bool.and_eq_true, startsWithS]
    have hdrop : ("/news/".toList ++ (slug ++ ',' :: ds)).drop 6 = slug ++ ',' :: ds := by
      have : ("/news/".toList ++ (slug ++ ',' :: ds)).drop ("/news/".toList).length
          = slug ++ ',' :: ds := List.drop_left _ _
      simpa using this
    constructor
    · exact List.isPrefixOf_iff_prefix.2 ⟨slug ++ ',' :: ds, by simp⟩
    · rw [hdrop, List.any_eq_true]
      have h1 : (slug ++ ',' :: ds).drop slug.length = ',' :: ds := List.drop_left _ _
      have h2 : (slug ++ ',' :: ds).drop (slug.length + 1) = ds := by
        have hsplit : slug ++ ',' :: ds = (slug ++ [',']) ++ ds := by simp
        have : ((slug ++ [',']) ++ ds).drop (slug ++ [',']).length = ds :=
          List.drop_left _ _
        rw [hsplit]
        simpa using this
      refine ⟨slug.length, ?_, ?_⟩
      · rw [List.mem_range, List.length_append, List.length_cons]
        omega
      · simp only [h1, h2, Bool.and_eq_true, decide_eq_true_eq, digitsPlus,
          Bool.not_eq_true', List.isEmpty_eq_false]
        exact ⟨⟨List.length_pos.2 hslug, trivial⟩, hds, hdig⟩

theorem firstImgCandidate_eq_firstSome (p : Page) (base : Str) (l : List Nat) :
    firstImgCandidate p base l = firstSome (l.map (imgCandidate p base)) := by
  induction l with
  | nil => rfl
  | cons q rest ih =>
    simp only [firstImgCandidate, List.map_cons]
    cases h : imgCandidate p base q <;> simp [firstSome, h, ih]

theorem firstSome_append (l₁ l₂ : List (Option Str)) :
    firstSome (l₁ ++ l₂) =
      match firstSome l₁ with
      | some x => some x
      | none => firstSome l₂ := by
  induction l₁ with
  | nil => simp [firstSome]
  | cons o rest ih => cases o <;> simp [firstSome, ih]

/-- C7 (amended): `find_image_url` returns the first *examined* candidate
with a usable non-data source — one probe per scope (the first image of the
anchor, of each of up to four ancestors, and the next image in document
order); if every probe fails the result is empty even when another image in
those scopes has a usable source. -/
theorem find_image_url_first_examined (p : Page) (a : Nat) (base : Str) :
    find_image_url p a base = firstSome (examinedImageCandidates p a base) := by
  unfold find_image_url examinedImageCandidates
  cases h1 : imgCandidate p base a with
  | some u => simp [firstSome, h1]
  | none =>
    simp only [firstSome, List.append_eq]
    rw [firstSome_append, ← firstImgCandidate_eq_firstSome]
    cases h2 : firstImgCandidate p base ((ancWalk p a).take 4) with
    | some u => simp [firstSome, h2]
    | none =>
      cases h3 : nextImgCandidate p base a <;> simp [firstSome, h2, h3]

/-- C7 (counterexample): a usable candidate exists in the chain's scopes
(the second image inside the anchor), yet `find_image_url` returns nothing,
because each scope is probed only at its first image. -/
theorem find_image_url_misses_usable_image :
    chainHasUsableCandidate imgChainPage 1 = true ∧
    find_image_url imgChainPage 1 SITE = none := by decide

theorem length_pyRstrip_le (s : Str) : (pyRstrip s).length ≤ s.length := by
  simp only [pyRstrip, List.length_reverse]
  exact ((List.dropWhile_suffix _).length_le).trans (by simp)

theorem length_beforeLastSpace_le (s : Str) : (beforeLastSpace s).length ≤ s.length := by
  simp only [beforeLastSpace, List.length_reverse, List.length_drop]
  exact (Nat.sub_le _ _).trans (((List.dropWhile_suffix _).length_le).trans (by simp))

theorem wordBoundaryCut_length_le (s : Str) (m : Nat) :
    (wordBoundaryCut s m).length ≤ m := by
  have htake : (s.take m).length ≤ m := by
    simp [List.length_take]
  unfold wordBoundaryCut
  split
  · exact (length_pyRstrip_le _).trans ((length_beforeLastSpace_le _).trans htake)
  · exact (length_pyRstrip_le _).trans htake

/-- C8: when the assembled text exceeds the budget, the builder returns it
cut at the last space boundary inside the budget (right-stripped) with the
one-character ellipsis appended, so the lead is at most `budget + 1`
characters long. -/
theorem lead_truncation_bound (paras : List Str) (maxChars : Nat)
    (h : maxChars < (joinedCollected maxChars paras).length) :
    build_lead_from_paras paras maxChars =
      some (wordBoundaryCut (joinedCollected maxChars paras) maxChars ++ ['…']) ∧
    (wordBoundaryCut (joinedCollected maxChars paras) maxChars ++ ['…']).length ≤
      maxChars + 1 := by
  constructor
  · have hch : (collectChunks maxChars paras 0).isEmpty = false := by
      cases hc : collectChunks maxChars paras 0 with
      | nil =>
        exfalso
        unfold joinedCollected at h
        rw [hc] at h
        rw [show joinSp ([] : List Str) = [] from rfl] at h
        simp at h
      | cons a l => rfl
    unfold joinedCollected at h
    simp only [build_lead_from_paras, hch, Bool.false_eq_true, if_false, if_pos h]
    rfl
  · have := wordBoundaryCut_length_le (joinedCollected maxChars paras) maxChars
    simp only [List.length_append, List.length_cons, List.length_nil]
    omega

theorem lead_truncation_bound_witness :
    build_lead_from_paras leadFixture 800 =
      some (wordBoundaryCut (joinedCollected 800 leadFixture) 800 ++ ['…']) ∧
    (wordBoundaryCut (joinedCollected 800 leadFixture) 800 ++ ['…']).length ≤ 801 :=
  lead_truncation_bound leadFixture 800 (by decide)

theorem cleanGo_covers {p : Page} {h : Str} :
    ∀ (l : List Nat) (seen : List Str), (∃ a ∈ l, hrefOf p a = some h) →
      h ≠ [] → h ∉ seen → ∃ a ∈ cleanGo p l seen, hrefOf p a = some h := by
  intro l
  induction l with
  | nil => simp
  | cons a rest ih =>
    intro seen hex hne hns
    obtain ⟨b, hb, hhb⟩ := hex
    have hie : h.isEmpty = false := by
      cases h with
      | nil => exact absurd rfl hne
      | cons c t => rfl
    rcases List.mem_cons.1 hb with rfl | hbr
    · simp only [cleanGo, hhb, hie, Bool.false_eq_true, if_false, if_neg hns]
      exact ⟨b, List.mem_cons_self _ _, hhb⟩
    · cases hha : hrefOf p a with
      | none =>
        simp only [cleanGo, hha]
        exact ih seen ⟨b, hbr, hhb⟩ hne hns
      | some h' =>
        by_cases hh'e : h'.isEmpty = true
        · simp only [cleanGo, hha, hh'e, if_true]
          exact ih seen ⟨b, hbr, hhb⟩ hne hns
        · by_cases hmem : h' ∈ seen
          · simp only [cleanGo, hha, hh'e, Bool.false_eq_true, if_false, if_pos hmem]
            exact ih seen ⟨b, hbr, hhb⟩ hne hns
          · simp only [cleanGo, hha, hh'e, Bool.false_eq_true, if_false, if_neg hmem]
            by_cases hEq : h' = h
            · exact ⟨a, List.mem_cons_self _ _, by rw [hha, hEq]⟩
            · have hns' : h ∉ h' :: seen := by
                intro hc
                rcases List.mem_cons.1 hc with hc | hc
                exacts [hEq hc.symm, hns hc]
              obtain ⟨x, hx, hhx⟩ := ih (h' :: seen) ⟨b, hbr, hhb⟩ hne hns'
              exact ⟨x, List.mem_cons_of_mem _ hx, hhx⟩

theorem lt_length_of_isTag {p : Page} {j : Nat} {t : Str} (h : isTag p j t = true) :
    j < p.nodes.length := by
  by_contra hnot
  unfold isTag at h
  rw [List.get?_eq_none.2 (Nat.le_of_not_lt hnot)] at h
  simp at h

/-- C2: the collector aggregates *all* selector strategies — every anchor
matched by the secondary-tile strategy and every anchor matched by the
fallback strategy contributes its href to the per-page union deduplicated by
raw href (so both fixture anchors of the claim appear in the collector's
output), rather than only the first non-empty strategy being used. -/
theorem selector_union_collects_all (p : Page) (j : Nat) (h : Str)
    (hhref : hrefOf p j = some h)
    (hsel : matchesSel2 p j = true ∨ matchesSel3 p j = true) :
    ∃ a ∈ cleanAnchors p, hrefOf p a = some h := by
  have key : isTag p j "a".toList = true ∧ startsWithS "/news/".toList h = true := by
    rcases hsel with hs | hs
    · simp only [matchesSel2, hhref, Bool.and_eq_true] at hs
      exact ⟨hs.1.1, hs.1.2⟩
    · simp only [matchesSel3, hhref, Bool.and_eq_true] at hs
      exact ⟨hs.1, hs.2⟩
  have hne : h ≠ [] := by
    intro hnil
    rw [hnil] at key
    simpa [startsWithS, List.isPrefixOf] using key.2
  have hmem : j ∈ collectedAnchors p := by
    have hlt : j < p.nodes.length := lt_length_of_isTag key.1
    unfold collectedAnchors
    rcases hsel with hs | hs
    · exact List.mem_append.2 (Or.inl (List.mem_append.2 (Or.inr
        (List.mem_filter.2 ⟨List.mem_range.2 hlt, hs⟩))))
    · exact List.mem_append.2 (Or.inr (List.mem_filter.2 ⟨List.mem_range.2 hlt, hs⟩))
  exact cleanGo_covers (collectedAnchors p) [] ⟨j, hmem, hhref⟩ hne (by simp)

theorem selector_union_collects_all_witness :
    (∃ a ∈ cleanAnchors selectorFixturePage,
      hrefOf selectorFixturePage a = some "/news/secondary-tile,11".toList) ∧
    (∃ a ∈ cleanAnchors selectorFixturePage,
      hrefOf selectorFixturePage a = some "/news/fallback-anchor,22".toList) :=
  ⟨selector_union_collects_all selectorFixturePage 2 _ (by decide) (Or.inl (by decide)),
   selector_union_collects_all selectorFixturePage 3 _ (by decide) (Or.inr (by decide))⟩

/-- C6: for an anchor whose title-classed descendants are all `h5` headings
(at least one existing), the resolver picks that heading via the
title-class lookup, and its non-empty text wins over the anchor's own text. -/
theorem heading_title_preferred (p : Page) (a : Nat)
    (hall : ∀ j, j < p.nodes.length → isDesc p a j = true →
      hasClass p j "tn-title".toList = true → isTag p j "h5".toList = true)
    (hex : ∃ j, j < p.nodes.length ∧ isDesc p a j = true ∧
      hasClass p j "tn-title".toList = true) :
    ∃ j0, select_one_class p a "tn-title".toList = some j0 ∧
      isTag p j0 "h5".toList = true ∧
      (getTextOf p j0 ≠ [] → resolveTitle p a = getTextOf p j0) := by
  obtain ⟨j, hj, hd, hc⟩ := hex
  have hsome : (select_one_class p a "tn-title".toList).isSome := by
    unfold select_one_class findDesc
    rw [List.find?_isSome]
    exact ⟨j, List.mem_range.2 hj, by rw [Bool.and_eq_true]; exact ⟨hd, hc⟩⟩
  obtain ⟨j0, hj0⟩ := Option.isSome_iff_exists.1 hsome
  have hj0' : (List.range p.nodes.length).find?
      (fun j => isDesc p a j && hasClass p j "tn-title".toList) = some j0 := hj0
  have hpred := List.find?_some hj0'
  rw [Bool.and_eq_true] at hpred
  have hmem : j0 < p.nodes.length :=
    List.mem_range.1 (List.mem_of_find?_eq_some hj0')
  have hh5 := hall j0 hmem hpred.1 hpred.2
  refine ⟨j0, hj0, hh5, ?_⟩
  intro htext
  have hie : (getTextOf p j0).isEmpty = false := by
    cases hgt : getTextOf p j0 with
    | nil => exact absurd hgt htext
    | cons c t => rfl
  unfold resolveTitle titleChain
  rw [hj0]
  simp [hie]

theorem heading_title_preferred_witness :
    resolveTitle headingFixturePage 1 = getTextOf headingFixturePage 2 := by
  obtain ⟨j0, hj0, hh5, himp⟩ := heading_title_preferred headingFixturePage 1
    (by decide) ⟨2, by decide, by decide, by decide⟩
  have hj0eq : j0 = 2 := by
    have : select_one_class headingFixturePage 1 "tn-title".toList = some 2 := by decide
    rw [this] at hj0
    exact (Option.some.inj hj0).symm
  subst hj0eq
  exact himp (by decide)

/-- C9 (counterexample): when every fallback step yields nothing the script
assigns the Polish placeholder `"Bez tytułu"`, not the claimed string
`"No title"`. -/
theorem placeholder_is_polish :
    resolveTitle emptyAnchorPage 0 = "Bez tytułu".toList ∧
    resolveTitle emptyAnchorPage 0 ≠ "No title".toList := by decide

/-- C9 (amended): the resolved title is never empty; when the whole fallback
chain yields nothing, the fixed placeholder `"Bez tytułu"` is assigned. -/
theorem title_never_empty (p : Page) (a : Nat) :
    (resolveTitle p a).isEmpty = false ∧
    (titleChain p a = [] → resolveTitle p a = "Bez tytułu".toList) := by
  have hmain : ∀ t : Str,
      (if t.isEmpty = true then "Bez tytułu".toList else t).isEmpty = false := by
    intro t
    split
    · rfl
    · next hcond =>
      simp only [Bool.not_eq_true] at hcond
      exact hcond
  constructor
  · exact hmain (titleChain p a)
  · intro h
    show (if (titleChain p a).isEmpty = true then "Bez tytułu".toList
        else titleChain p a) = "Bez tytułu".toList
    rw [h]
    rfl

/-- The C9 witness: the placeholder case realised on the bare anchor. -/
theorem title_never_empty_witness :
    resolveTitle emptyAnchorPage 0 = "Bez tytułu".toList :=
  (title_never_empty emptyAnchorPage 0).2 (by decide)

/-- C10: `parse_polish_date` returns a formatted timestamp only for a found
day/month/year pattern whose lowercased month name is in `PL_MONTHS` and
whose numbers form a valid calendar date; unmatched input, unknown month
names, and invalid calendar dates all yield `none`. -/
theorem parse_polish_date_total_guarded :
    (∀ s : Str, parse_polish_date s = none ∨
      ∃ d mn y m, dmySearch s = some (d, mn, y) ∧
        lookupMonth (strToLower mn) = some m ∧ validDate y m d = true ∧
        parse_polish_date s = some (to_rfc2822 y m d 12 0 0)) ∧
    (∀ (s : Str) (d : Nat) (mn : Str) (y : Nat), dmySearch s = some (d, mn, y) →
      (lookupMonth (strToLower mn) = none ∨
        ∃ m, lookupMonth (strToLower mn) = some m ∧ validDate y m d = false) →
      parse_polish_date s = none) ∧
    (∀ s : Str, dmySearch s = none → parse_polish_date s = none) := by
  refine ⟨?_, ?_, ?_⟩
  · intro s
    by_cases hs : s.isEmpty = true
    · left; simp [parse_polish_date, hs]
    · cases hsearch : dmySearch s with
      | none => left; simp [parse_polish_date, hs, hsearch]
      | some t =>
        obtain ⟨d, mn, y⟩ := t
        cases hlk : lookupMonth (strToLower mn) with
        | none => left; simp [parse_polish_date, hs, hsearch, hlk]
        | some m =>
          cases hv : validDate y m d with
          | false => left; simp [parse_polish_date, hs, hsearch, hlk, hv]
          | true =>
            right
            exact ⟨d, mn, y, m, rfl, hlk, hv,
              by simp [parse_polish_date, hs, hsearch, hlk, hv]⟩
  · intro s d mn y hsearch hbad
    by_cases hs : s.isEmpty = true
    · simp [parse_polish_date, hs]
    · rcases hbad with hlk | ⟨m, hlk, hv⟩
      · simp [parse_polish_date, hs, hsearch, hlk]
      · simp [parse_polish_date, hs, hsearch, hlk, hv]
  · intro s hsearch
    by_cases hs : s.isEmpty = true
    · simp [parse_polish_date, hs]
    · simp [parse_polish_date, hs, hsearch]

theorem parse_polish_date_total_guarded_witness :
    parse_polish_date "31 kwietnia 2025".toList = none ∧
    parse_polish_date "28 lunario 2025".toList = none ∧
    parse_polish_date "brak daty".toList = none := by
  refine ⟨?_, ?_, ?_⟩
  · exact parse_polish_date_total_guarded.2.1 _ 31 "kwietnia".toList 2025 (by decide)
      (Or.inr ⟨4, by decide, by decide⟩)
  · exact parse_polish_date_total_guarded.2.1 _ 28 "lunario".toList 2025 (by decide)
      (Or.inl (by decide))
  · exact parse_polish_date_total_guarded.2.2 _ (by decide)

theorem enrichDetails_length (fetch : Str → Option DetailPage) (cap : Nat) :
    ∀ (its : List Item) (idx : Nat),
      (enrichDetails fetch cap its idx).length = its.length := by
  intro its
  induction its with
  | nil => intro idx; rfl
  | cons it rest ih =>
    intro idx
    unfold enrichDetails
    split
    · rfl
    · simp [ih (idx + 1)]

theorem enrichDetails_get? (fetch : Str → Option DetailPage) (cap : Nat) :
    ∀ (its : List Item) (idx i : Nat),
      (enrichDetails fetch cap its idx).get? i =
        if idx + i < cap then (its.get? i).map (enrichOne fetch) else its.get? i := by
  intro its
  induction its with
  | nil => intro idx i; simp [enrichDetails]
  | cons it rest ih =>
    intro idx i
    unfold enrichDetails
    split
    · next hcap => rw [if_neg (by omega)]
    · next hcap =>
      cases i with
      | zero =>
        rw [if_pos (by omega)]
        rfl
      | succ i' =>
        show (enrichDetails fetch cap rest (idx + 1)).get? i' = _
        rw [ih (idx + 1) i']
        by_cases hc : idx + (i' + 1) < cap
        · rw [if_pos (by omega), if_pos hc]
          rfl
        · rw [if_neg (by omega), if_neg hc]
          rfl

theorem enrichOne_fields (fetch : Str → Option DetailPage) (it : Item) :
    (enrichOne fetch it).title = it.title ∧ (enrichOne fetch it).link = it.link ∧
    (enrichOne fetch it).guid = it.guid ∧ (enrichOne fetch it).image = it.image ∧
    (enrichOne fetch it).mime = it.mime := by
  simp only [enrichOne]
  split <;> split <;> simp

/-- C5: only items at index strictly below the cap are touched (each by its
own enrichment), every item at or beyond the cap is returned unchanged, the
length is preserved, enrichment never alters the listing-pass fields, and
listing-pass items carry neither `pubDate` nor `lead` to begin with. -/
theorem enrichment_cap_frame (fetch : Str → Option DetailPage) (cap : Nat)
    (its : List Item) :
    (enrichDetails fetch cap its 0).length = its.length ∧
    (∀ i, cap ≤ i → (enrichDetails fetch cap its 0).get? i = its.get? i) ∧
    (∀ i, i < cap →
      (enrichDetails fetch cap its 0).get? i = (its.get? i).map (enrichOne fetch)) ∧
    (∀ it : Item, (enrichOne fetch it).title = it.title ∧
      (enrichOne fetch it).link = it.link ∧ (enrichOne fetch it).guid = it.guid ∧
      (enrichOne fetch it).image = it.image ∧ (enrichOne fetch it).mime = it.mime) ∧
    (∀ (p : Page) (a : Nat), (buildItem p a).pubDate = none ∧ (buildItem p a).lead = none) := by
  refine ⟨enrichDetails_length fetch cap its 0, ?_, ?_, enrichOne_fields fetch,
    fun p a => ⟨rfl, rfl⟩⟩
  · intro i hi
    rw [enrichDetails_get? fetch cap its 0 i]
    exact if_neg (by omega)
  · intro i hi
    rw [enrichDetails_get? fetch cap its 0 i]
    exact if_pos (by omega)

theorem enrichment_cap_frame_witness :
    (enrichDetails failFetch 2 [wItem 1, wItem 2, wItem 3, wItem 4, wItem 5] 0).get? 4 =
      some (wItem 5) ∧
    (enrichDetails failFetch 2 [wItem 1, wItem 2, wItem 3, wItem 4, wItem 5] 0).get? 1 =
      some (enrichOne failFetch (wItem 2)) := by
  have h := enrichment_cap_frame failFetch 2 [wItem 1, wItem 2, wItem 3, wItem 4, wItem 5]
  refine ⟨?_, ?_⟩
  · rw [h.2.1 4 (by omega)]
    rfl
  · rw [h.2.2.1 1 (by omega)]
    rfl

/-- C4: when the primary detail fetch of one item fails, the enrichment
function returns `(None, None)`, that item survives the enrichment loop
completely unchanged (so in particular keeps no `pubDate`/`lead`), and every
other position receives exactly its own enrichment result, unaffected. -/
theorem detail_fetch_failure_isolated (fetch : Str → Option DetailPage) (cap : Nat)
    (its : List Item) (k : Nat) (it0 : Item)
    (hk : its.get? k = some it0)
    (hfail : fetch it0.link = none)
    (hclean : it0.pubDate = none ∧ it0.lead = none) :
    fetch_article_details fetch it0.link = (none, none) ∧
    ((enrichDetails fetch cap its 0).get? k = some it0 ∧
      it0.pubDate = none ∧ it0.lead = none) ∧
    (∀ j, j ≠ k →
      (enrichDetails fetch cap its 0).get? j =
        if j < cap then (its.get? j).map (enrichOne fetch) else its.get? j) := by
  have hdet : fetch_article_details fetch it0.link = (none, none) := by
    unfold fetch_article_details
    rw [hfail]
  have hone : enrichOne fetch it0 = it0 := by
    unfold enrichOne
    rw [hdet]
    rfl
  refine ⟨hdet, ⟨?_, hclean.1, hclean.2⟩, ?_⟩
  · rw [enrichDetails_get? fetch cap its 0 k]
    by_cases hc : 0 + k < cap
    · rw [if_pos hc, hk]
      simp [hone]
    · rw [if_neg hc]
      exact hk
  · intro j hj
    rw [enrichDetails_get? fetch cap its 0 j]
    simp only [Nat.zero_add]

theorem detail_fetch_failure_isolated_witness :
    fetch_article_details failOnFirst (wItem 1).link = (none, none) ∧
    (enrichDetails failOnFirst 500 [wItem 1, wItem 2] 0).get? 0 = some (wItem 1) ∧
    (enrichDetails failOnFirst 500 [wItem 1, wItem 2] 0).get? 1 =
      some (enrichOne failOnFirst (wItem 2)) := by
  have h := detail_fetch_failure_isolated failOnFirst 500 [wItem 1, wItem 2] 0 (wItem 1)
    rfl (by simp [failOnFirst]) ⟨rfl, rfl⟩
  refine ⟨h.1, h.2.1.1, ?_⟩
  rw [h.2.2 1 (by omega), if_pos (by omega)]
  rfl

theorem enrichDetails_map_link (fetch : Str → Option DetailPage) (cap : Nat) :
    ∀ (its : List Item) (idx : Nat),
      (enrichDetails fetch cap its idx).map Item.link = its.map Item.link := by
  intro its
  induction its with
  | nil => intro idx; rfl
  | cons it rest ih =>
    intro idx
    unfold enrichDetails
    split
    · rfl
    · simp only [List.map_cons, ih (idx + 1)]
      rw [(enrichOne_fields fetch it).2.1]

/-- C1: the deduplication pass keeps a subsequence of its input (relative
order unchanged) whose links are pairwise distinct; every input link is
represented, and each kept item is exactly the first input item carrying its
link.  Composed through enrichment and the `MAX_ITEMS` cut, the final
output of `fetch_items` never contains two items with the same link. -/
theorem final_output_links_unique :
    (∀ its : List Item,
      (dedupByLink its).Sublist its ∧
      (dedupByLink its).Pairwise (fun x y => x.link ≠ y.link) ∧
      (∀ it ∈ its, ∃ x ∈ dedupByLink its, x.link = it.link) ∧
      (∀ x ∈ dedupByLink its, its.find? (fun y => decide (y.link = x.link)) = some x)) ∧
    (∀ (pages : List (Option Page)) (fetch : Str → Option DetailPage),
      (fetch_items pages fetch).Pairwise (fun x y => x.link ≠ y.link)) := by
  constructor
  · intro its
    refine ⟨dedupGo_sublist its [], dedupGo_pairwise its [], ?_, ?_⟩
    · intro it hit
      exact dedupGo_covers its [] hit (by simp)
    · intro x hx
      rcases dedupGo_first its [] hx with hfind | hseen
      · exact hfind
      · simp at hseen
  · intro pages fetch
    have hdp : ((dedupByLink (collectAllItems pages)).map Item.link).Pairwise
        (fun x y => x ≠ y) :=
      (List.pairwise_map).2 (dedupGo_pairwise (collectAllItems pages) [])
    have hmap := enrichDetails_map_link fetch DETAIL_LIMIT
      (dedupByLink (collectAllItems pages)) 0
    rw [← hmap] at hdp
    exact List.Pairwise.sublist (List.take_sublist _ _) ((List.pairwise_map).1 hdp)

theorem final_output_links_unique_witness :
    (∃ x ∈ dedupByLink [itemA, itemB, itemC], x.link = itemB.link) ∧
    [itemA, itemB, itemC].find? (fun y => decide (y.link = itemA.link)) = some itemA :=
  ⟨(final_output_links_unique.1 [itemA, itemB, itemC]).2.2.1 itemB (by simp),
   (final_output_links_unique.1 [itemA, itemB, itemC]).2.2.2 itemA (by decide)⟩
